import Mathlib

/-!
Verification development for the aggregation and table-filtering core of a
Jira agile-metrics reporting tool (`utils.py` plus the defects, net-flow and
waste calculators).

Modelling conventions (shallow embedding):
* pandas `Timestamp`s carrying pure dates become a `Date` structure
  (year / month / day); day arithmetic is done through a serial day number.
* a row of the items DataFrame passed to `breakdown_by_month` /
  `breakdown_by_month_sum_days` becomes an `Item` (key, category, start,
  optional end; a missing end models `NaT` and is replaced by `today`,
  which is passed explicitly).
* DataFrames become a `Table`: an index list, a column-name list and a
  row-major list of rational cells.  Float arithmetic is idealised as `ℚ`.
* functions that mutate their input DataFrame are modelled in state-passing
  style: they return `(new input state, result)`.
* Python code that raises for the inputs in question is modelled with
  `Option`, `none` standing for the raised exception.
-/

attribute [local semireducible] Rat.add Rat.mul Rat.inv Rat.sub

/-- Gregorian leap-year rule, as implemented by the `pandas` calendar. -/
def isLeap (y : Nat) : Bool :=
  (y % 4 == 0 && y % 100 != 0) || (y % 400 == 0)

/-- Number of days of month `m` (1-12) of year `y`. -/
def daysInMonth (y m : Nat) : Nat :=
  if m = 2 then (if isLeap y then 29 else 28)
  else if m = 4 ∨ m = 6 ∨ m = 9 ∨ m = 11 then 30
  else 31

/-- Calendar date (proleptic Gregorian), modelling a normalized
`pandas.Timestamp`. -/
structure Date where
  year : Nat
  month : Nat
  day : Nat
deriving DecidableEq, Repr

/-- Validity of a `Date`: the month is 1-12 and the day exists in that
month. -/
def Date.WF (d : Date) : Prop :=
  1 ≤ d.month ∧ d.month ≤ 12 ∧ 1 ≤ d.day ∧ d.day ≤ daysInMonth d.year d.month

instance (d : Date) : Decidable d.WF := by
  unfold Date.WF; infer_instance

/-- Index of the calendar month of `d` on the time line, modelling
`Timestamp.normalize().to_period("M")`. -/
def Date.monthIdx (d : Date) : Nat := 12 * d.year + (d.month - 1)

/-- Days of year `y` that fall before month `m`. -/
def daysBeforeMonth (y m : Nat) : Nat :=
  ((List.range (m - 1)).map (fun k => daysInMonth y (k + 1))).sum

/-- Serial day number of a date (days are counted from a fixed origin, the
way `pandas` counts `Timestamp`s in days); consecutive calendar days have
consecutive serial numbers, which is all the day arithmetic below uses. -/
def Date.serial (d : Date) : Nat :=
  (365 * d.year + d.year / 4 - d.year / 100 + d.year / 400)
    + daysBeforeMonth d.year d.month + d.day

/-- One row of the items DataFrame handed to the breakdown functions: a
unique key, a categorical value, a start timestamp and an optional end
timestamp (`none` models `NaT`, i.e. a still-open item). -/
structure Item where
  key : String
  category : String
  start : Date
  endDate : Option Date
deriving DecidableEq, Repr

/-- Effective end of an item: `end_date` unless it is `NaT`, in which case
`pd.Timestamp.today()` (passed in explicitly as `today`). -/
def effectiveEnd (today : Date) (i : Item) : Date :=
  i.endDate.getD today

/-- Month indices of the per-item frame built by `build_df`: the months
spanned from the start's month to the effective end's month, inclusive
(`pd.date_range(first_month, last_month, freq="MS")`). -/
def itemMonths (today : Date) (i : Item) : List Nat :=
  List.range' i.start.monthIdx ((effectiveEnd today i).monthIdx + 1 - i.start.monthIdx)

/-- Number of days of calendar month `m` (a month index) covered by the
inclusive day interval from `s` to `e`, modelling
`len(pd.date_range(month_start, month_start + MonthEnd(1), freq="D")
.intersection(pd.date_range(s, e, freq="D")))`. -/
def overlapDays (s e : Date) (m : Nat) : Nat :=
  let y := m / 12
  let mo := m % 12 + 1
  let lo := max s.serial (Date.serial ⟨y, mo, 1⟩)
  let hi := min e.serial (Date.serial ⟨y, mo, daysInMonth y mo⟩)
  hi + 1 - lo

/-- Per-item frame built by `build_df` inside `breakdown_by_month_sum_days`:
for each month the item spans, the number of overlapping days. -/
def sumItemFrame (today : Date) (i : Item) : List (Nat × Nat) :=
  (itemMonths today i).map (fun m => (m, overlapDays i.start (effectiveEnd today i) m))

/-- Monthly aggregate DataFrame: a month index (list of month indices), the
value columns, and row-major numeric cells. -/
structure Table where
  index : List Nat
  cols : List String
  rows : List (List ℚ)
deriving DecidableEq, Repr

/-- Well-formedness of a `Table`: one row per index entry and one cell per
column in every row. -/
def Table.WF (t : Table) : Prop :=
  t.index.length = t.rows.length ∧ ∀ r ∈ t.rows, r.length = t.cols.length

instance (t : Table) : Decidable t.WF := by
  unfold Table.WF; infer_instance

/-- Cell of row `r` (a row of `t`) in the column named `c`. -/
def rowVal (t : Table) (r : List ℚ) (c : String) : ℚ :=
  r.getD (t.cols.indexOf c) 0

/-- Column of `t` named `c`, as the list of its per-row values. -/
def Table.col (t : Table) (c : String) : List ℚ :=
  t.rows.map (fun r => rowVal t r c)

/-- Cell of `t` at index label `m` and column `c` (0 if absent, the way the
spec reads missing cells). -/
def Table.cell (t : Table) (m : Nat) (c : String) : ℚ :=
  (t.rows.getD (t.index.indexOf m) []).getD (t.cols.indexOf c) 0

/-- Distinct values of `l` in ascending order: the column index produced by
`pd.concat(..., sort=True)`, which unions the single-column frames and
sorts the column names. -/
def dedupSorted (l : List String) : List String :=
  List.insertionSort (· ≤ ·) l.dedup

/-- Month index of the earliest start among `items` (the left end of the
resampled index). -/
def monthLo (items : List Item) : Nat :=
  ((items.map (fun i => i.start.monthIdx)).minimum).untop' 0

/-- Month index of the latest effective end among `items` (the right end of
the resampled index). -/
def monthHi (today : Date) (items : List Item) : Nat :=
  ((items.map (fun i => (effectiveEnd today i).monthIdx)).maximum).unbot' 0

/-- Number of items of category `c` active in month `m`: what
`.resample("MS").agg("count")` computes per cell, each active item
contributing its (non-null) key once. -/
def countActive (items : List Item) (today : Date) (m : Nat) (c : String) : Nat :=
  items.countP (fun i =>
    i.category == c && decide (i.start.monthIdx ≤ m)
      && decide (m ≤ (effectiveEnd today i).monthIdx))

/-- Embedding of `breakdown_by_month` (utils.py): one single-column frame
per item over the months it spans, concatenated with sorted columns and
resampled to month starts counting items.  `none` models the
`ValueError` that `pd.concat` raises when `df` has no rows. -/
def breakdown_by_month (items : List Item) (today : Date) : Option Table :=
  match items with
  | [] => none
  | _ :: _ =>
    let lo := monthLo items
    let hi := monthHi today items
    let index := List.range' lo (hi + 1 - lo)
    let cols := dedupSorted (items.map (·.category))
    some ⟨index, cols,
      index.map (fun m => cols.map (fun c => (countActive items today m c : ℚ)))⟩

/-- Sum over the items of category `c` of their day overlap with month `m`
(0 for months outside an item's frame): what `.resample("MS").agg("sum")`
computes per cell from the concatenated per-item frames. -/
def sumActive (items : List Item) (today : Date) (m : Nat) (c : String) : Nat :=
  (items.map (fun i =>
    if i.category = c then ((sumItemFrame today i).lookup m).getD 0 else 0)).sum

/-- Embedding of `breakdown_by_month_sum_days` (utils.py): like
`breakdown_by_month` but each per-item frame holds the overlapping day
counts, and resampling sums them.  `none` models the `ValueError` that
`pd.concat` raises when `df` has no rows. -/
def breakdown_by_month_sum_days (items : List Item) (today : Date) : Option Table :=
  match items with
  | [] => none
  | _ :: _ =>
    let lo := monthLo items
    let hi := monthHi today items
    let index := List.range' lo (hi + 1 - lo)
    let cols := dedupSorted (items.map (·.category))
    some ⟨index, cols,
      index.map (fun m => cols.map (fun c => (sumActive items today m c : ℚ)))⟩

/-- Projection of `t` onto the column names `cs` (in the order of `cs`),
modelling `df[cs]`. -/
def Table.selectCols (t : Table) (cs : List String) : Table :=
  ⟨t.index, cs, t.rows.map (fun r => cs.map (fun c => rowVal t r c))⟩

/-- Column assignment `df[c] = vals`: overwrite the column in place if it
exists, otherwise append it as the last column. -/
def Table.setCol (t : Table) (c : String) (vals : List ℚ) : Table :=
  if t.cols.contains c then
    ⟨t.index, t.cols,
      (t.rows.zip vals).map (fun rv => rv.1.set (t.cols.indexOf c) rv.2)⟩
  else
    ⟨t.index, t.cols ++ [c], (t.rows.zip vals).map (fun rv => rv.1 ++ [rv.2])⟩

/-- Embedding of `filter_by_columns` (utils.py), in state-passing style:
the first component is the input DataFrame after the call (unchanged), the
second the returned frame.  An empty `output_columns` list is falsy in
Python, so the frame is returned as is. -/
def filter_by_columns (t : Table) (output_columns : List String) : Table × Table :=
  if output_columns ≠ [] then
    (t, t.selectCols (output_columns.filter (fun s => t.cols.contains s)))
  else (t, t)

/-- Share of cell value `v` in `total1`, as `df * 100.0 / total[1]`
computes it (idealising float by `ℚ`). -/
def shareOf (v total1 : ℚ) : ℚ := v * 100 / total1

/-- Mask computed by `filter_by_threshold` for one column: true when every
row's share of the second row's total is below the threshold. -/
def collapses (t : Table) (threshold : ℚ) (c : String) : Bool :=
  t.rows.all (fun r => decide (shareOf (rowVal t r c) ((t.rows.getD 1 []).sum) < threshold))

/-- Embedding of `filter_by_threshold` (utils.py), in state-passing style.
With a falsy (zero) threshold the frame is returned unchanged.  Otherwise
`total = df.sum(axis=1)` and `total[1]` is the second row's total (the
index is positional on a date-indexed frame); with fewer than two rows
that lookup raises, modelled by `none`.  The collapsed columns are summed
into an `Others` column that is assigned onto the INPUT frame (the code
mutates `df`), and the returned frame keeps the non-collapsed columns in
their original order together with `Others`. -/
def filter_by_threshold (t : Table) (threshold : ℚ) : Option (Table × Table) :=
  if threshold ≠ 0 then
    match t.rows[1]? with
    | none => none
    | some _ =>
      let others : List ℚ :=
        t.rows.map (fun r =>
          ((t.cols.filter (fun c => collapses t threshold c)).map (fun c => rowVal t r c)).sum)
      let t' := t.setCol "Others" others
      let keep := t'.cols.filter (fun c => c == "Others" || !(collapses t threshold c))
      some (t', t'.selectCols keep)
  else some (t, t)

/-- Embedding of `filter_by_window` (utils.py), in state-passing style:
`df[-window:]` keeps the trailing `window` rows; a falsy (zero) window
returns the frame unchanged. -/
def filter_by_window (t : Table) (window : Nat) : Table × Table :=
  if window ≠ 0 then
    (t, ⟨t.index.drop (t.index.length - window), t.cols,
          t.rows.drop (t.rows.length - window)⟩)
  else (t, t)

/-- Ascending argsort order used by `sort_colums_by_last_row`: column
position `i` precedes `j` when its value in the last row is smaller, ties
broken by original position (numpy's argsort on the small arrays at hand
is insertion sort, hence stable). -/
def sortKey (lastRow : List ℚ) (i j : Nat) : Prop :=
  lastRow.getD i 0 < lastRow.getD j 0 ∨ (lastRow.getD i 0 = lastRow.getD j 0 ∧ i ≤ j)

instance (lastRow : List ℚ) : DecidableRel (sortKey lastRow) := by
  unfold sortKey; infer_instance

instance (lastRow : List ℚ) : IsTotal Nat (sortKey lastRow) where
  total i j := by
    unfold sortKey
    rcases lt_trichotomy (lastRow.getD i 0) (lastRow.getD j 0) with h | h | h
    · exact Or.inl (Or.inl h)
    · rcases Nat.le_total i j with hij | hij
      · exact Or.inl (Or.inr ⟨h, hij⟩)
      · exact Or.inr (Or.inr ⟨h.symm, hij⟩)
    · exact Or.inr (Or.inl h)

instance (lastRow : List ℚ) : IsTrans Nat (sortKey lastRow) where
  trans i j k hij hjk := by
    unfold sortKey at *
    rcases hij with h₁ | ⟨e₁, l₁⟩
    · rcases hjk with h₂ | ⟨e₂, _⟩
      · exact Or.inl (h₁.trans h₂)
      · exact Or.inl (e₂ ▸ h₁)
    · rcases hjk with h₂ | ⟨e₂, l₂⟩
      · exact Or.inl (e₁ ▸ h₂)
      · exact Or.inr ⟨e₁.trans e₂, l₁.trans l₂⟩

instance (lastRow : List ℚ) : IsAntisymm Nat (sortKey lastRow) where
  antisymm i j hij hji := by
    unfold sortKey at *
    rcases hij with h₁ | ⟨e₁, l₁⟩
    · rcases hji with h₂ | ⟨e₂, _⟩
      · exact absurd (h₁.trans h₂) (lt_irrefl _)
      · exact absurd (e₂ ▸ h₁) (lt_irrefl _)
    · rcases hji with h₂ | ⟨_, l₂⟩
      · exact absurd (e₁ ▸ h₂) (lt_irrefl _)
      · exact Nat.le_antisymm l₁ l₂

/-- Column order produced by sorting `t`'s columns on the last row:
pandas computes an ascending stable argsort of the sort row and, for a
descending sort, reverses the whole order (`nargsort`). -/
def sortPermutation (t : Table) (ascending : Bool) : List Nat :=
  let lastRow := t.rows.getLast?.getD []
  let asc := List.insertionSort (sortKey lastRow) (List.range t.cols.length)
  if ascending then asc else asc.reverse

/-- Embedding of `sort_colums_by_last_row` (utils.py), in state-passing
style: a no-op on a frame with no rows or no columns, otherwise the
columns (and every row) are permuted by the values of the last row
(`df.last_valid_index()` is the last row here, the cells being numeric),
descending by default. -/
def sort_colums_by_last_row (t : Table) (ascending : Bool) : Table × Table :=
  if 0 < t.index.length ∧ 0 < t.cols.length then
    let perm := sortPermutation t ascending
    (t, ⟨t.index, perm.map (fun j => t.cols.getD j ""),
          t.rows.map (fun r => perm.map (fun j => r.getD j 0))⟩)
  else (t, t)

/-- Settings consumed by `NetFlowChartCalculator.run`: the configured
workflow stage names (`[s["name"] for s in settings["cycle"]]`) and the
committed / done column bindings. -/
structure NetFlowSettings where
  cycleNames : List String
  committed_column : String
  done_column : String
deriving DecidableEq, Repr

/-- Value of column `c` in a keyed row (CFD rows carry one value per stage
name). -/
def colLookup (row : List (String × ℚ)) (c : String) : ℚ :=
  (row.lookup c).getD 0

/-- Subtraction on possibly-missing values: `NaN` propagates. -/
def optSub (a b : Option ℚ) : Option ℚ :=
  match a, b with
  | some x, some y => some (x - y)
  | _, _ => none

/-- Embedding of `Series.diff().fillna(series)`: the first difference of a
series, with every missing difference (the first entry, and any entry
whose operand is missing) replaced by the series' own value there. -/
def diffFill (xs : List (Option ℚ)) : List (Option ℚ) :=
  (List.range xs.length).map (fun k =>
    if k = 0 then xs.getD 0 none
    else
      match optSub (xs.getD k none) (xs.getD (k - 1) none) with
      | some v => some v
      | none => xs.getD k none)

/-- One output row of the net-flow calculation. -/
structure NetFlowRow where
  period : Nat
  arrivals : Option ℚ
  departures : Option ℚ
  net_flow : Option ℚ
deriving DecidableEq, Repr

/-- Embedding of `NetFlowChartCalculator.run` (netflow.py).  The CFD input
is a list of day-stamped rows of per-stage values; `freq` is the length in
days of a resampling period, a day `d` falling in period `d / freq`.  If
the configured committed or done column is not among the configured cycle
names the error is logged and `none` is returned (no exception).
Otherwise the two columns are resampled to per-period maxima (`none` for
an empty period, pandas' `NaN`), arrivals and departures are the
diff-with-fill of the two series, and net flow their difference. -/
def netFlowRun (s : NetFlowSettings) (freq : Nat)
    (cfd : List (Nat × List (String × ℚ))) : Option (List NetFlowRow) :=
  if s.committed_column ∉ s.cycleNames then none
  else if s.done_column ∉ s.cycleNames then none
  else
    match cfd with
    | [] => some []
    | _ :: _ =>
      let pOf : Nat → Nat := fun d => d / freq
      let lo := ((cfd.map (fun r => pOf r.1)).minimum).untop' 0
      let hi := ((cfd.map (fun r => pOf r.1)).maximum).unbot' 0
      let periods := List.range' lo (hi + 1 - lo)
      let maxCol : Nat → String → Option ℚ := fun p c =>
        ((cfd.filter (fun r => pOf r.1 == p)).map (fun r => colLookup r.2 c)).max?
      let committed := periods.map (fun p => maxCol p s.committed_column)
      let done := periods.map (fun p => maxCol p s.done_column)
      let arrivals := diffFill committed
      let departures := diffFill done
      some ((List.range periods.length).map (fun k =>
        { period := periods.getD k 0
          arrivals := arrivals.getD k none
          departures := departures.getD k none
          net_flow := optSub (arrivals.getD k none) (departures.getD k none) }))

/-- Settings consumed by `WasteCalculator.write`: ordered workflow stage
names and the backlog / done column bindings. -/
structure WasteSettings where
  cycleNames : List String
  backlog_column : String
  done_column : String
deriving DecidableEq, Repr

/-- One row of the frame produced by `WasteCalculator.run`: a withdrawn
issue's key, the stage it held before withdrawal, and the withdrawal date
(as a day number). -/
structure WasteRecord where
  key : String
  last_status : String
  withdrawn_date : Nat
deriving DecidableEq, Repr

/-- Waste breakdown table: periods, stage columns, and cells that are
either a count or missing (`none` models the `NaN` that `reindex`
introduces for stages absent from the pivot). -/
structure WTable where
  index : List Nat
  cols : List String
  rows : List (List (Option ℚ))
deriving DecidableEq, Repr

/-- Embedding of the breakdown computed in `WasteCalculator.write`
(waste.py).  `none` models the early return on an empty frame and the
`ValueError` that `list.remove` raises when the backlog or done column is
not among the cycle names.  Otherwise: pivot withdrawal counts by
(period, last stage) — after the `Grouper` resampling, each cell of an
observed stage column is the (possibly zero) count of its records —
reindex the columns to the ordered cycle names minus backlog and done
(stages never observed get a column of `NaN`), and keep the trailing
`window` rows if a window is set. -/
def wasteBreakdown (s : WasteSettings) (freq : Nat) (window : Nat)
    (records : List WasteRecord) : Option WTable :=
  match records with
  | [] => none
  | _ :: _ =>
    if s.backlog_column ∉ s.cycleNames then none
    else if s.done_column ∉ s.cycleNames.erase s.backlog_column then none
    else
      let stages := (s.cycleNames.erase s.backlog_column).erase s.done_column
      let pOf : Nat → Nat := fun d => d / freq
      let observed := records.map (·.last_status)
      let lo := ((records.map (fun r => pOf r.withdrawn_date)).minimum).untop' 0
      let hi := ((records.map (fun r => pOf r.withdrawn_date)).maximum).unbot' 0
      let periods := List.range' lo (hi + 1 - lo)
      let count : Nat → String → Nat := fun p st =>
        records.countP (fun r => r.last_status == st && pOf r.withdrawn_date == p)
      let tbl : WTable :=
        ⟨periods, stages,
          periods.map (fun p => stages.map (fun st =>
            if observed.contains st then some ((count p st : Nat) : ℚ) else none))⟩
      some (if window ≠ 0 then
        ⟨tbl.index.drop (tbl.index.length - window), tbl.cols,
          tbl.rows.drop (tbl.rows.length - window)⟩
      else tbl)

theorem untop'_minimum_le {l : List Nat} {a : Nat} (h : a ∈ l) :
    l.minimum.untop' 0 ≤ a := by
  cases hm : l.minimum with
  | top =>
    exact absurd (List.minimum_eq_top.mp hm ▸ h) (List.not_mem_nil a)
  | coe m =>
    rw [WithTop.untop'_coe]
    exact_mod_cast hm ▸ List.minimum_le_of_mem' h

theorem untop'_minimum_mem {l : List Nat} (h : l ≠ []) :
    l.minimum.untop' 0 ∈ l := by
  cases hm : l.minimum with
  | top => exact absurd (List.minimum_eq_top.mp hm) h
  | coe m =>
    rw [WithTop.untop'_coe]
    exact List.minimum_mem hm

theorem le_unbot'_maximum {l : List Nat} {a : Nat} (h : a ∈ l) :
    a ≤ l.maximum.unbot' 0 := by
  cases hm : l.maximum with
  | bot =>
    exact absurd (List.maximum_eq_bot.mp hm ▸ h) (List.not_mem_nil a)
  | coe m =>
    rw [WithBot.unbot'_coe]
    exact_mod_cast hm ▸ List.le_maximum_of_mem' h

theorem unbot'_maximum_mem {l : List Nat} (h : l ≠ []) :
    l.maximum.unbot' 0 ∈ l := by
  cases hm : l.maximum with
  | bot => exact absurd (List.maximum_eq_bot.mp hm) h
  | coe m =>
    rw [WithBot.unbot'_coe]
    exact List.maximum_mem hm

theorem perm_minimum {α : Type _} [LinearOrder α] {l₁ l₂ : List α}
    (h : l₁.Perm l₂) : l₁.minimum = l₂.minimum := by
  rcases eq_or_ne l₂ [] with rfl | hne
  · rw [h.eq_nil]
  · cases hm : l₂.minimum with
    | top => exact absurd (List.minimum_eq_top.mp hm) hne
    | coe m =>
      rw [List.minimum_eq_coe_iff] at hm ⊢
      exact ⟨h.mem_iff.mpr hm.1, fun a ha => hm.2 a (h.mem_iff.mp ha)⟩

theorem perm_maximum {α : Type _} [LinearOrder α] {l₁ l₂ : List α}
    (h : l₁.Perm l₂) : l₁.maximum = l₂.maximum := by
  rcases eq_or_ne l₂ [] with rfl | hne
  · rw [h.eq_nil]
  · cases hm : l₂.maximum with
    | bot => exact absurd (List.maximum_eq_bot.mp hm) hne
    | coe m =>
      rw [List.maximum_eq_coe_iff] at hm ⊢
      exact ⟨h.mem_iff.mpr hm.1, fun a ha => hm.2 a (h.mem_iff.mp ha)⟩

theorem dedupSorted_perm (l : List String) : (dedupSorted l).Perm l.dedup :=
  List.perm_insertionSort _ _

theorem dedupSorted_sorted (l : List String) :
    List.Sorted (· ≤ ·) (dedupSorted l) :=
  List.sorted_insertionSort _ _

theorem mem_dedupSorted {l : List String} {a : String} :
    a ∈ dedupSorted l ↔ a ∈ l := by
  rw [(dedupSorted_perm l).mem_iff, List.mem_dedup]

theorem dedupSorted_nodup (l : List String) : (dedupSorted l).Nodup :=
  ((dedupSorted_perm l).nodup_iff).mpr (List.nodup_dedup l)

theorem dedupSorted_eq_of_perm {l₁ l₂ : List String} (h : l₁.Perm l₂) :
    dedupSorted l₁ = dedupSorted l₂ :=
  List.eq_of_perm_of_sorted
    ((dedupSorted_perm l₁).trans (h.dedup.trans (dedupSorted_perm l₂).symm))
    (dedupSorted_sorted l₁) (dedupSorted_sorted l₂)

theorem map_getD_range {α : Type _} (l : List α) (d : α) :
    (List.range l.length).map (fun i => l.getD i d) = l := by
  apply List.ext_getElem (by simp)
  intro n h1 h2
  simp only [List.getElem_map, List.getElem_range]
  exact List.getD_eq_getElem l d h2

theorem map_getD_indexOf {α β : Type _} [DecidableEq α] (cs : List α)
    (g : α → β) (c : α) (d : β) (hc : c ∈ cs) :
    (cs.map g).getD (cs.indexOf c) d = g c := by
  have hci : cs.indexOf c < cs.length := List.indexOf_lt_length.mpr hc
  rw [List.getD_eq_getElem _ _ (by simpa using hci), List.getElem_map,
    List.getElem_indexOf]

theorem breakdown_by_month_eq (items : List Item) (today : Date) (h : items ≠ []) :
    breakdown_by_month items today =
      some ⟨List.range' (monthLo items) (monthHi today items + 1 - monthLo items),
            dedupSorted (items.map (·.category)),
            (List.range' (monthLo items) (monthHi today items + 1 - monthLo items)).map
              (fun m => (dedupSorted (items.map (·.category))).map
                (fun c => (countActive items today m c : ℚ)))⟩ := by
  cases items with
  | nil => exact absurd rfl h
  | cons a as => rfl

theorem breakdown_by_month_sum_days_eq (items : List Item) (today : Date)
    (h : items ≠ []) :
    breakdown_by_month_sum_days items today =
      some ⟨List.range' (monthLo items) (monthHi today items + 1 - monthLo items),
            dedupSorted (items.map (·.category)),
            (List.range' (monthLo items) (monthHi today items + 1 - monthLo items)).map
              (fun m => (dedupSorted (items.map (·.category))).map
                (fun c => (sumActive items today m c : ℚ)))⟩ := by
  cases items with
  | nil => exact absurd rfl h
  | cons a as => rfl

/-- C2 counterexample: on the empty item set both breakdown functions hit
`pd.concat([])`, which raises `ValueError` (modelled as `none`); no empty
table is returned, so the claim fails at this input. -/
theorem C2_counterexample :
    breakdown_by_month [] ⟨2018, 6, 15⟩ = none ∧
    breakdown_by_month_sum_days [] ⟨2018, 6, 15⟩ = none ∧
    (none : Option Table) ≠ some ⟨[], [], []⟩ :=
  ⟨rfl, rfl, by simp⟩

/-- C2 (amended): for the empty input, `breakdown_by_month` and
`breakdown_by_month_sum_days` raise (`pd.concat` with no objects to
concatenate), modelled by `none`; callers must guard against empty input
rather than receive an empty table. -/
theorem C2_empty_input_raises (today : Date) :
    breakdown_by_month [] today = none ∧
    breakdown_by_month_sum_days [] today = none :=
  ⟨rfl, rfl⟩

/-- C9: if the configured committed or done stage name is not among the
configured workflow stage names, the net-flow calculation logs the error
and returns no result (`none`), without raising. -/
theorem C9_missing_column_returns_none (s : NetFlowSettings) (freq : Nat)
    (cfd : List (Nat × List (String × ℚ)))
    (h : s.committed_column ∉ s.cycleNames ∨ s.done_column ∉ s.cycleNames) :
    netFlowRun s freq cfd = none := by
  unfold netFlowRun
  rcases h with h | h
  · rw [if_pos h]
  · by_cases hc : s.committed_column ∉ s.cycleNames
    · rw [if_pos hc]
    · rw [if_neg hc, if_pos h]

/-- C9 witness: a concrete configuration whose committed column is not a
cycle name yields `none`. -/
theorem C9_witness :
    (("Nope" : String) ∉ ["Backlog", "Build", "Done"] ∨
      ("Done" : String) ∉ ["Backlog", "Build", "Done"]) ∧
    netFlowRun ⟨["Backlog", "Build", "Done"], "Nope", "Done"⟩ 7
      [(0, [("Build", 1)])] = none :=
  ⟨Or.inl (by decide),
    C9_missing_column_returns_none ⟨["Backlog", "Build", "Done"], "Nope", "Done"⟩ 7
      [(0, [("Build", 1)])] (Or.inl (by decide))⟩


/-- C5 counterexample: `filter_by_threshold` mutates its input frame — on a
concrete table the post-call input state has gained an `Others` column, so
the claim that every TableFilters operation leaves its input unchanged
fails. -/
theorem C5_counterexample :
    ∃ p, filter_by_threshold ⟨[0, 1], ["a", "b"], [[1, 99], [1, 99]]⟩ 50 = some p ∧
      p.1 ≠ ⟨[0, 1], ["a", "b"], [[1, 99], [1, 99]]⟩ := by
  refine ⟨(⟨[0, 1], ["a", "b", "Others"], [[1, 99, 1], [1, 99, 1]]⟩,
    ⟨[0, 1], ["b", "Others"], [[99, 1], [99, 1]]⟩), by decide, by decide⟩

/-- C5 (amended): `filter_by_columns`, `filter_by_window` and
`sort_colums_by_last_row` leave their input frame unchanged;
`filter_by_threshold` leaves the input unchanged when the threshold is
falsy, but with a non-zero threshold it mutates the input by assigning an
`Others` column onto it (the pre-existing columns, rows and index are
otherwise untouched by `setCol`). -/
theorem C5_filters_mutation (t : Table) (names : List String) (window : Nat)
    (asc : Bool) (θ : ℚ) (t' out : Table)
    (h : filter_by_threshold t θ = some (t', out)) :
    (filter_by_columns t names).1 = t ∧
    (filter_by_window t window).1 = t ∧
    (sort_colums_by_last_row t asc).1 = t ∧
    (t' = t ∨ ∃ v, t' = t.setCol "Others" v) := by
  refine ⟨?_, ?_, ?_, ?_⟩
  · unfold filter_by_columns; split <;> rfl
  · unfold filter_by_window; split <;> rfl
  · unfold sort_colums_by_last_row; split <;> rfl
  · unfold filter_by_threshold at h
    split at h
    · cases hrows : t.rows[1]? with
      | none => rw [hrows] at h; exact absurd h (by simp)
      | some r1 =>
        rw [hrows] at h
        simp only [Option.some.injEq, Prod.mk.injEq] at h
        exact Or.inr ⟨_, h.1.symm⟩
    · simp only [Option.some.injEq, Prod.mk.injEq] at h
      exact Or.inl h.1.symm

/-- C5 witness: the amended statement at a concrete table, threshold and
result pair. -/
theorem C5_witness :
    (filter_by_columns ⟨[0, 1], ["a", "b"], [[1, 99], [1, 99]]⟩ ["a"]).1 =
      ⟨[0, 1], ["a", "b"], [[1, 99], [1, 99]]⟩ ∧
    (filter_by_window ⟨[0, 1], ["a", "b"], [[1, 99], [1, 99]]⟩ 3).1 =
      ⟨[0, 1], ["a", "b"], [[1, 99], [1, 99]]⟩ ∧
    (sort_colums_by_last_row ⟨[0, 1], ["a", "b"], [[1, 99], [1, 99]]⟩ false).1 =
      ⟨[0, 1], ["a", "b"], [[1, 99], [1, 99]]⟩ ∧
    (⟨[0, 1], ["a", "b", "Others"], [[1, 99, 1], [1, 99, 1]]⟩ =
        (⟨[0, 1], ["a", "b"], [[1, 99], [1, 99]]⟩ : Table) ∨
      ∃ v, (⟨[0, 1], ["a", "b", "Others"], [[1, 99, 1], [1, 99, 1]]⟩ : Table) =
        Table.setCol ⟨[0, 1], ["a", "b"], [[1, 99], [1, 99]]⟩ "Others" v) :=
  C5_filters_mutation ⟨[0, 1], ["a", "b"], [[1, 99], [1, 99]]⟩ ["a"] 3 false 50
    ⟨[0, 1], ["a", "b", "Others"], [[1, 99, 1], [1, 99, 1]]⟩
    ⟨[0, 1], ["b", "Others"], [[99, 1], [99, 1]]⟩ (by decide)

/-- C6: an item whose start and effective end `e` fall in the same
calendar month — the effective end being the stored end date, or `today`
for a still-open (`NaT`-ended) item — contributes exactly one value, for
that single month, equal to the inclusive day count `D2 - D1 + 1`; in
particular a start equal to the effective end contributes 1. -/
theorem C6_single_month_days (i : Item) (today e : Date)
    (he : effectiveEnd today i = e) (hwfS : i.start.WF) (hwfE : e.WF)
    (hy : e.year = i.start.year) (hm : e.month = i.start.month)
    (hd : i.start.day ≤ e.day) :
    sumItemFrame today i = [(i.start.monthIdx, e.day - i.start.day + 1)] := by
  obtain ⟨hm1, hm2, hd1, _⟩ := hwfS
  obtain ⟨_, _, _, he2⟩ := hwfE
  have hee : effectiveEnd today i = e := he
  have ha : (effectiveEnd today i).monthIdx = i.start.monthIdx := by
    rw [hee]; unfold Date.monthIdx; rw [hy, hm]
  have hdiv : (12 * i.start.year + (i.start.month - 1)) / 12 = i.start.year := by
    rw [Nat.mul_add_div (by norm_num), Nat.div_eq_of_lt (by omega), Nat.add_zero]
  have hmod : (12 * i.start.year + (i.start.month - 1)) % 12 = i.start.month - 1 := by
    rw [Nat.mul_add_mod]
    exact Nat.mod_eq_of_lt (by omega)
  unfold sumItemFrame itemMonths
  rw [ha]
  rw [show i.start.monthIdx + 1 - i.start.monthIdx = 1 from by omega]
  show [i.start.monthIdx].map _ = _
  simp only [List.map_cons, List.map_nil]
  refine congrArg (fun v => [(i.start.monthIdx, v)]) ?_
  rw [hee]
  unfold overlapDays
  simp only
  unfold Date.monthIdx
  rw [hdiv, hmod]
  rw [show i.start.month - 1 + 1 = i.start.month from by omega]
  have he2' : e.day ≤ daysInMonth i.start.year i.start.month := by
    rw [← hy, ← hm]; exact he2
  unfold Date.serial
  simp only
  rw [hy, hm]
  rw [Nat.max_eq_left (by omega), Nat.min_eq_left (by omega)]
  omega

/-- C6 witness: a concrete one-month item (21 January 2018 to 25 January
2018) contributes the single value 5 in January 2018, a same-day item
contributes 1, and a still-open item (no end date) started 10 June 2018
with "today" being 15 June 2018 contributes 6 in June 2018. -/
theorem C6_witness :
    sumItemFrame ⟨2018, 6, 15⟩ ⟨"A", "x", ⟨2018, 1, 21⟩, some ⟨2018, 1, 25⟩⟩ =
      [(24216, 5)] ∧
    sumItemFrame ⟨2018, 6, 15⟩ ⟨"B", "y", ⟨2018, 1, 21⟩, some ⟨2018, 1, 21⟩⟩ =
      [(24216, 1)] ∧
    sumItemFrame ⟨2018, 6, 15⟩ ⟨"C", "z", ⟨2018, 6, 10⟩, none⟩ =
      [(24221, 6)] :=
  ⟨C6_single_month_days ⟨"A", "x", ⟨2018, 1, 21⟩, some ⟨2018, 1, 25⟩⟩ ⟨2018, 6, 15⟩
      ⟨2018, 1, 25⟩ rfl (by decide) (by decide) rfl rfl (by decide),
    C6_single_month_days ⟨"B", "y", ⟨2018, 1, 21⟩, some ⟨2018, 1, 21⟩⟩ ⟨2018, 6, 15⟩
      ⟨2018, 1, 21⟩ rfl (by decide) (by decide) rfl rfl (by decide),
    C6_single_month_days ⟨"C", "z", ⟨2018, 6, 10⟩, none⟩ ⟨2018, 6, 15⟩
      ⟨2018, 6, 15⟩ rfl (by decide) (by decide) rfl rfl (by decide)⟩

/-- C3: both breakdown operations are invariant under permutation of the
input item sequence — the result depends only on the multiset of items. -/
theorem C3_perm_invariant (items itemsP : List Item) (today : Date)
    (h : items.Perm itemsP) :
    breakdown_by_month items today = breakdown_by_month itemsP today ∧
    breakdown_by_month_sum_days items today = breakdown_by_month_sum_days itemsP today := by
  rcases eq_or_ne items [] with rfl | hne
  · rw [h.symm.eq_nil]
    exact ⟨rfl, rfl⟩
  · have hneP : itemsP ≠ [] := by
      intro e
      rw [e] at h
      exact hne h.eq_nil
    have hlo : monthLo items = monthLo itemsP := by
      unfold monthLo
      rw [perm_minimum (h.map (fun i => i.start.monthIdx))]
    have hhi : monthHi today items = monthHi today itemsP := by
      unfold monthHi
      rw [perm_maximum (h.map (fun i => (effectiveEnd today i).monthIdx))]
    have hcols : dedupSorted (items.map (·.category)) =
        dedupSorted (itemsP.map (·.category)) :=
      dedupSorted_eq_of_perm (h.map (·.category))
    have hcount : ∀ m c, countActive items today m c = countActive itemsP today m c :=
      fun m c => h.countP_eq _
    have hsum : ∀ m c, sumActive items today m c = sumActive itemsP today m c := by
      intro m c
      unfold sumActive
      exact (h.map _).sum_eq
    constructor
    · rw [breakdown_by_month_eq items today hne, breakdown_by_month_eq itemsP today hneP,
        hlo, hhi, hcols]
      simp only [hcount]
    · rw [breakdown_by_month_sum_days_eq items today hne,
        breakdown_by_month_sum_days_eq itemsP today hneP, hlo, hhi, hcols]
      simp only [hsum]

/-- C3 witness: a concrete two-item list and its transposition yield equal
tables under both operations. -/
theorem C3_witness :
    ([⟨"A", "x", ⟨2018, 1, 1⟩, some ⟨2018, 2, 1⟩⟩,
      ⟨"B", "y", ⟨2018, 1, 5⟩, some ⟨2018, 1, 9⟩⟩] : List Item).Perm
      [⟨"B", "y", ⟨2018, 1, 5⟩, some ⟨2018, 1, 9⟩⟩,
       ⟨"A", "x", ⟨2018, 1, 1⟩, some ⟨2018, 2, 1⟩⟩] ∧
    breakdown_by_month
        [⟨"A", "x", ⟨2018, 1, 1⟩, some ⟨2018, 2, 1⟩⟩,
         ⟨"B", "y", ⟨2018, 1, 5⟩, some ⟨2018, 1, 9⟩⟩] ⟨2018, 6, 15⟩ =
      breakdown_by_month
        [⟨"B", "y", ⟨2018, 1, 5⟩, some ⟨2018, 1, 9⟩⟩,
         ⟨"A", "x", ⟨2018, 1, 1⟩, some ⟨2018, 2, 1⟩⟩] ⟨2018, 6, 15⟩ ∧
    breakdown_by_month_sum_days
        [⟨"A", "x", ⟨2018, 1, 1⟩, some ⟨2018, 2, 1⟩⟩,
         ⟨"B", "y", ⟨2018, 1, 5⟩, some ⟨2018, 1, 9⟩⟩] ⟨2018, 6, 15⟩ =
      breakdown_by_month_sum_days
        [⟨"B", "y", ⟨2018, 1, 5⟩, some ⟨2018, 1, 9⟩⟩,
         ⟨"A", "x", ⟨2018, 1, 1⟩, some ⟨2018, 2, 1⟩⟩] ⟨2018, 6, 15⟩ :=
  ⟨List.Perm.swap _ _ _,
    (C3_perm_invariant _ _ ⟨2018, 6, 15⟩ (List.Perm.swap _ _ _)).1,
    (C3_perm_invariant _ _ ⟨2018, 6, 15⟩ (List.Perm.swap _ _ _)).2⟩

theorem sort_colums_pos_eq (t : Table) (asc : Bool)
    (hg : 0 < t.index.length ∧ 0 < t.cols.length) :
    sort_colums_by_last_row t asc =
      (t, ⟨t.index, (sortPermutation t asc).map (fun j => t.cols.getD j ""),
            t.rows.map (fun r => (sortPermutation t asc).map (fun j => r.getD j 0))⟩) := by
  unfold sort_colums_by_last_row
  rw [if_pos hg]

theorem sortPermutation_perm_range (t : Table) (asc : Bool) :
    (sortPermutation t asc).Perm (List.range t.cols.length) := by
  unfold sortPermutation
  cases asc with
  | true => exact List.perm_insertionSort _ _
  | false =>
    exact (List.reverse_perm _).trans (List.perm_insertionSort _ _)


/-- C7 counterexample: on a one-row table whose two columns hold equal
last-row values, the default descending sort returns the columns reversed
— ties are not stable, because pandas reverses an ascending argsort to get
the descending order. -/
theorem C7_counterexample :
    (sort_colums_by_last_row ⟨[0], ["a", "b"], [[1, 1]]⟩ false).2.cols = ["b", "a"] ∧
    (["b", "a"] : List String) ≠ ["a", "b"] :=
  ⟨by decide, by decide⟩


/-- C7 (amended): `sort_colums_by_last_row` is a no-op on a table with zero
rows or zero columns; otherwise it leaves its input unchanged and returns
a table with the same index whose columns are a permutation of the input
columns ordered by the last row's values — non-increasing by default,
non-decreasing when ascending — with ties NOT kept in original relative
order (the descending order is a reversed ascending stable argsort). -/
theorem C7_sort_columns (t : Table) (asc : Bool) (hwf : t.WF) :
    ((t.index = [] ∨ t.cols = []) → sort_colums_by_last_row t asc = (t, t)) ∧
    (sort_colums_by_last_row t asc).1 = t ∧
    (sort_colums_by_last_row t asc).2.index = t.index ∧
    ((sort_colums_by_last_row t asc).2.cols).Perm t.cols ∧
    (asc = false →
      List.Sorted (fun a b => b ≤ a)
        ((sort_colums_by_last_row t asc).2.rows.getLast?.getD [])) ∧
    (asc = true →
      List.Sorted (fun a b => a ≤ b)
        ((sort_colums_by_last_row t asc).2.rows.getLast?.getD [])) := by
  by_cases hg : 0 < t.index.length ∧ 0 < t.cols.length
  · have heq := sort_colums_pos_eq t asc hg
    have hrne : t.rows ≠ [] := by
      intro e
      have h1 := hwf.1
      have h2 := hg.1
      rw [e] at h1
      simp only [List.length_nil] at h1
      omega
    have hlast : t.rows.getLast? = some (t.rows.getLast hrne) :=
      List.getLast?_eq_getLast t.rows hrne
    have hlastmem : t.rows.getLast hrne ∈ t.rows := List.getLast_mem hrne
    -- the sorted row of the output
    have hout :
        (sort_colums_by_last_row t asc).2.rows.getLast?.getD [] =
          (sortPermutation t asc).map
            (fun j => (t.rows.getLast hrne).getD j 0) := by
      rw [heq]
      simp only [List.getLast?_map, hlast]
      rfl
    have hascSorted :
        List.Sorted (sortKey (t.rows.getLast?.getD []))
          (List.insertionSort (sortKey (t.rows.getLast?.getD []))
            (List.range t.cols.length)) :=
      List.sorted_insertionSort _ _
    refine ⟨?_, ?_, ?_, ?_, ?_, ?_⟩
    · intro hc
      rcases hc with hc | hc <;> rw [hc] at hg <;> simp at hg
    · rw [heq]
    · rw [heq]
    · rw [heq]
      have := (sortPermutation_perm_range t asc).map (fun j => t.cols.getD j "")
      rw [map_getD_range] at this
      exact this
    · intro hasc
      rw [hout, hasc]
      unfold sortPermutation
      simp only [Bool.false_eq_true, if_false, hlast, Option.getD_some]
      rw [List.map_reverse]
      refine List.pairwise_reverse.mpr ?_
      have hs : List.Sorted (sortKey (t.rows.getLast hrne))
          (List.insertionSort (sortKey (t.rows.getLast hrne))
            (List.range t.cols.length)) := List.sorted_insertionSort _ _
      refine List.Pairwise.map _ ?_ hs
      intro a b hab
      rcases hab with hlt | ⟨heq2, _⟩
      · exact le_of_lt hlt
      · exact le_of_eq heq2
    · intro hasc
      rw [hout, hasc]
      unfold sortPermutation
      simp only [if_true, hlast, Option.getD_some]
      have hs : List.Sorted (sortKey (t.rows.getLast hrne))
          (List.insertionSort (sortKey (t.rows.getLast hrne))
            (List.range t.cols.length)) := List.sorted_insertionSort _ _
      refine List.Pairwise.map _ ?_ hs
      intro a b hab
      rcases hab with hlt | ⟨heq2, _⟩
      · exact le_of_lt hlt
      · exact le_of_eq heq2
  · have heq : sort_colums_by_last_row t asc = (t, t) := by
      unfold sort_colums_by_last_row
      rw [if_neg hg]
    have hlastnil : t.rows.getLast?.getD [] = ([] : List ℚ) ∨
        (∃ r ∈ t.rows, t.rows.getLast?.getD [] = r ∧ r.length = 0) := by
      rcases eq_or_ne t.rows [] with e | hne
      · left; rw [e]; rfl
      · right
        have hlast := List.getLast?_eq_getLast t.rows hne
        refine ⟨t.rows.getLast hne, List.getLast_mem hne, by rw [hlast]; rfl, ?_⟩
        have hcols0 : t.cols.length = 0 := by
          rcases not_and_or.mp hg with h | h
          · exfalso
            have := hwf.1
            have hlen : t.rows.length ≠ 0 := by
              intro e2
              exact hne (List.eq_nil_of_length_eq_zero e2)
            omega
          · omega
        rw [hwf.2 _ (List.getLast_mem hne), hcols0]
    refine ⟨fun _ => heq, by rw [heq], by rw [heq], by rw [heq], ?_, ?_⟩
    · intro _
      rw [heq]
      rcases hlastnil with e | ⟨r, _, e, hr0⟩
      · simp only
        rw [e]
        exact List.sorted_nil
      · simp only
        rw [e, List.length_eq_zero.mp hr0]
        exact List.sorted_nil
    · intro _
      rw [heq]
      rcases hlastnil with e | ⟨r, _, e, hr0⟩
      · simp only
        rw [e]
        exact List.sorted_nil
      · simp only
        rw [e, List.length_eq_zero.mp hr0]
        exact List.sorted_nil

/-- C7 witness: the amended statement at a concrete two-row, three-column
table sorted descending. -/
theorem C7_witness :
    ((⟨[0, 1], ["a", "b", "c"], [[0, 0, 0], [1, 3, 2]]⟩ : Table).index = [] ∨
        (⟨[0, 1], ["a", "b", "c"], [[0, 0, 0], [1, 3, 2]]⟩ : Table).cols = [] →
      sort_colums_by_last_row ⟨[0, 1], ["a", "b", "c"], [[0, 0, 0], [1, 3, 2]]⟩ false =
        (⟨[0, 1], ["a", "b", "c"], [[0, 0, 0], [1, 3, 2]]⟩,
          ⟨[0, 1], ["a", "b", "c"], [[0, 0, 0], [1, 3, 2]]⟩)) ∧
    (sort_colums_by_last_row ⟨[0, 1], ["a", "b", "c"], [[0, 0, 0], [1, 3, 2]]⟩ false).1 =
      ⟨[0, 1], ["a", "b", "c"], [[0, 0, 0], [1, 3, 2]]⟩ ∧
    (sort_colums_by_last_row ⟨[0, 1], ["a", "b", "c"], [[0, 0, 0], [1, 3, 2]]⟩ false).2.index =
      (⟨[0, 1], ["a", "b", "c"], [[0, 0, 0], [1, 3, 2]]⟩ : Table).index ∧
    ((sort_colums_by_last_row ⟨[0, 1], ["a", "b", "c"], [[0, 0, 0], [1, 3, 2]]⟩ false).2.cols).Perm
      (⟨[0, 1], ["a", "b", "c"], [[0, 0, 0], [1, 3, 2]]⟩ : Table).cols ∧
    (false = false →
      List.Sorted (fun a b => b ≤ a)
        ((sort_colums_by_last_row ⟨[0, 1], ["a", "b", "c"], [[0, 0, 0], [1, 3, 2]]⟩
            false).2.rows.getLast?.getD [])) ∧
    (false = true →
      List.Sorted (fun a b => a ≤ b)
        ((sort_colums_by_last_row ⟨[0, 1], ["a", "b", "c"], [[0, 0, 0], [1, 3, 2]]⟩
            false).2.rows.getLast?.getD [])) :=
  C7_sort_columns ⟨[0, 1], ["a", "b", "c"], [[0, 0, 0], [1, 3, 2]]⟩ false (by decide)


theorem cell_of_grid (index : List Nat) (cols : List String) (f : Nat → String → ℚ)
    (m : Nat) (c : String) (hm : m ∈ index) (hc : c ∈ cols) :
    Table.cell ⟨index, cols, index.map (fun m2 => cols.map (fun c2 => f m2 c2))⟩ m c
      = f m c := by
  have hmi : index.indexOf m < index.length := List.indexOf_lt_length.mpr hm
  have hci : cols.indexOf c < cols.length := List.indexOf_lt_length.mpr hc
  unfold Table.cell
  show ((index.map (fun m2 => cols.map (fun c2 => f m2 c2))).getD
      (index.indexOf m) []).getD (cols.indexOf c) 0 = f m c
  have h1 : (index.map (fun m2 => cols.map (fun c2 => f m2 c2))).getD
      (index.indexOf m) [] = cols.map (fun c2 => f m c2) := by
    rw [List.getD_eq_getElem _ _ (by simpa using hmi), List.getElem_map,
      List.getElem_indexOf hmi]
  rw [h1, List.getD_eq_getElem _ _ (by simpa using hci), List.getElem_map,
    List.getElem_indexOf hci]

/-- C1: for every non-empty item set (dates satisfying the start-before-end
invariant), `breakdown_by_month` returns a table whose month index is
exactly the contiguous, duplicate-free run of months from the earliest
item's start month to the latest item's effective-end month, every month
an item spans lies in the index and its category among the columns, and
every cell holds the number of items of that column's category active in
that row's month — so each item contributes 1 to every month it spans and
every untouched (month, category) cell is 0, not absent. -/
theorem C1_count_by_month (items : List Item) (today : Date) (hne : items ≠ [])
    (hval : ∀ i ∈ items, i.start.monthIdx ≤ (effectiveEnd today i).monthIdx) :
    ∃ T, breakdown_by_month items today = some T ∧
      T.index.Nodup ∧
      (∀ m, m ∈ T.index ↔ monthLo items ≤ m ∧ m ≤ monthHi today items) ∧
      (∀ k, k + 1 < T.index.length → T.index.getD (k + 1) 0 = T.index.getD k 0 + 1) ∧
      (∃ i ∈ items, i.start.monthIdx = monthLo items) ∧
      (∃ i ∈ items, (effectiveEnd today i).monthIdx = monthHi today items) ∧
      (∀ i ∈ items, monthLo items ≤ i.start.monthIdx ∧
        (effectiveEnd today i).monthIdx ≤ monthHi today items) ∧
      (∀ i ∈ items, ∀ m, i.start.monthIdx ≤ m → m ≤ (effectiveEnd today i).monthIdx →
        m ∈ T.index ∧ i.category ∈ T.cols) ∧
      (∀ m ∈ T.index, ∀ c ∈ T.cols,
        T.cell m c = ((items.filter (fun i =>
          i.category == c && decide (i.start.monthIdx ≤ m)
            && decide (m ≤ (effectiveEnd today i).monthIdx))).length : ℚ)) := by
  have hmapne : items.map (fun i => i.start.monthIdx) ≠ [] := by
    simpa using hne
  have hmapne2 : items.map (fun i => (effectiveEnd today i).monthIdx) ≠ [] := by
    simpa using hne
  obtain ⟨i0, hi0, hlo_eq⟩ :=
    List.mem_map.mp (untop'_minimum_mem hmapne)
  obtain ⟨i1, hi1, hhi_eq⟩ :=
    List.mem_map.mp (unbot'_maximum_mem hmapne2)
  have hlo_le : ∀ i ∈ items, monthLo items ≤ i.start.monthIdx := fun i hi =>
    untop'_minimum_le (List.mem_map.mpr ⟨i, hi, rfl⟩)
  have hhi_ge : ∀ i ∈ items, (effectiveEnd today i).monthIdx ≤ monthHi today items :=
    fun i hi => le_unbot'_maximum (List.mem_map.mpr ⟨i, hi, rfl⟩)
  have hlohi : monthLo items ≤ monthHi today items := by
    have h1 := hval i0 hi0
    have h2 := hhi_ge i0 hi0
    have h3 : monthLo items = i0.start.monthIdx := hlo_eq.symm
    omega
  have hmemiff : ∀ m, m ∈ List.range' (monthLo items) (monthHi today items + 1 - monthLo items) ↔
      monthLo items ≤ m ∧ m ≤ monthHi today items := by
    intro m
    rw [List.mem_range'_1]
    omega
  refine ⟨_, breakdown_by_month_eq items today hne, ?_, ?_, ?_, ?_, ?_, ?_, ?_, ?_⟩
  · exact List.nodup_range' _ _
  · exact hmemiff
  · intro k hk
    simp only [List.length_range'] at hk
    rw [List.getD_eq_getElem _ _ (by simpa using hk),
      List.getD_eq_getElem _ _ (by simp; omega),
      List.getElem_range'_1, List.getElem_range'_1]
    omega
  · exact ⟨i0, hi0, hlo_eq⟩
  · exact ⟨i1, hi1, hhi_eq⟩
  · exact fun i hi => ⟨hlo_le i hi, hhi_ge i hi⟩
  · intro i hi m h1 h2
    constructor
    · rw [hmemiff]
      constructor
      · exact le_trans (hlo_le i hi) h1
      · exact le_trans h2 (hhi_ge i hi)
    · exact mem_dedupSorted.mpr (List.mem_map.mpr ⟨i, hi, rfl⟩)
  · intro m hm c hc
    rw [cell_of_grid _ _ _ _ _ hm hc]
    unfold countActive
    rw [List.countP_eq_length_filter]

/-- C1 witness: the statement at a concrete single item spanning January
and February 2018. -/
theorem C1_witness :
    ∃ T, breakdown_by_month ([⟨"A", "x", ⟨2018, 1, 10⟩, some ⟨2018, 2, 3⟩⟩] : List Item)
        ⟨2018, 6, 15⟩ = some T ∧
      T.index.Nodup ∧
      (∀ m, m ∈ T.index ↔
        monthLo ([⟨"A", "x", ⟨2018, 1, 10⟩, some ⟨2018, 2, 3⟩⟩] : List Item) ≤ m ∧
        m ≤ monthHi ⟨2018, 6, 15⟩ ([⟨"A", "x", ⟨2018, 1, 10⟩, some ⟨2018, 2, 3⟩⟩] : List Item)) ∧
      (∀ k, k + 1 < T.index.length → T.index.getD (k + 1) 0 = T.index.getD k 0 + 1) ∧
      (∃ i ∈ ([⟨"A", "x", ⟨2018, 1, 10⟩, some ⟨2018, 2, 3⟩⟩] : List Item),
        Date.monthIdx i.start = monthLo ([⟨"A", "x", ⟨2018, 1, 10⟩, some ⟨2018, 2, 3⟩⟩] : List Item)) ∧
      (∃ i ∈ ([⟨"A", "x", ⟨2018, 1, 10⟩, some ⟨2018, 2, 3⟩⟩] : List Item),
        Date.monthIdx (effectiveEnd ⟨2018, 6, 15⟩ i) =
          monthHi ⟨2018, 6, 15⟩ ([⟨"A", "x", ⟨2018, 1, 10⟩, some ⟨2018, 2, 3⟩⟩] : List Item)) ∧
      (∀ i ∈ ([⟨"A", "x", ⟨2018, 1, 10⟩, some ⟨2018, 2, 3⟩⟩] : List Item),
        monthLo ([⟨"A", "x", ⟨2018, 1, 10⟩, some ⟨2018, 2, 3⟩⟩] : List Item) ≤ Date.monthIdx i.start ∧
        Date.monthIdx (effectiveEnd ⟨2018, 6, 15⟩ i) ≤
          monthHi ⟨2018, 6, 15⟩ ([⟨"A", "x", ⟨2018, 1, 10⟩, some ⟨2018, 2, 3⟩⟩] : List Item)) ∧
      (∀ i ∈ ([⟨"A", "x", ⟨2018, 1, 10⟩, some ⟨2018, 2, 3⟩⟩] : List Item), ∀ m,
        Date.monthIdx i.start ≤ m → m ≤ Date.monthIdx (effectiveEnd ⟨2018, 6, 15⟩ i) →
        m ∈ T.index ∧ i.category ∈ T.cols) ∧
      (∀ m ∈ T.index, ∀ c ∈ T.cols,
        T.cell m c = ((([⟨"A", "x", ⟨2018, 1, 10⟩, some ⟨2018, 2, 3⟩⟩] : List Item).filter
          (fun i => i.category == c && decide (Date.monthIdx i.start ≤ m)
            && decide (m ≤ Date.monthIdx (effectiveEnd ⟨2018, 6, 15⟩ i)))).length : ℚ)) :=
  C1_count_by_month ([⟨"A", "x", ⟨2018, 1, 10⟩, some ⟨2018, 2, 3⟩⟩] : List Item) ⟨2018, 6, 15⟩
    (by decide) (by decide)

/-- C8 counterexample: with stages Backlog/Build/Review/Done and a single
withdrawal in Build, the output column set is [Build, Review] as claimed,
but the Review column's cell is `none` (pandas `reindex` fills new columns
with `NaN`), not 0 — the all-zero-column part of the claim fails. -/
theorem C8_counterexample :
    ∃ T, wasteBreakdown ⟨["Backlog", "Build", "Review", "Done"], "Backlog", "Done"⟩ 1 0
        [⟨"K-1", "Build", 5⟩] = some T ∧
      "Review" ∈ T.cols ∧
      ¬ (∀ row ∈ T.rows, row.getD (T.cols.indexOf "Review") (some 0) = some 0) := by
  refine ⟨⟨[5], ["Build", "Review"], [[some 1, none]]⟩, by decide, by decide, ?_⟩
  intro h
  have := h [some 1, none] (by decide)
  simp at this

/-- C8 (amended): the waste breakdown's column set equals the full ordered
configured stage list minus the backlog and done stages; a stage in that
list with no withdrawals still appears as a column, but its cells are all
`NaN` (`reindex` fill, modelled `none`), not 0, while stages with at least
one withdrawal hold numeric (count) cells. -/
theorem C8_waste_columns (s : WasteSettings) (freq window : Nat)
    (records : List WasteRecord) (hne : records ≠ [])
    (hb : s.backlog_column ∈ s.cycleNames)
    (hd : s.done_column ∈ s.cycleNames.erase s.backlog_column) :
    ∃ T, wasteBreakdown s freq window records = some T ∧
      T.cols = (s.cycleNames.erase s.backlog_column).erase s.done_column ∧
      (∀ row ∈ T.rows, row.length = T.cols.length) ∧
      (∀ st ∈ T.cols, st ∉ records.map (·.last_status) →
        ∀ row ∈ T.rows, row.getD (T.cols.indexOf st) (some 0) = none) ∧
      (∀ st ∈ T.cols, st ∈ records.map (·.last_status) →
        ∀ row ∈ T.rows, ∃ q : ℚ, row.getD (T.cols.indexOf st) none = some q) := by
  obtain ⟨r0, rs, rfl⟩ := List.exists_cons_of_ne_nil hne
  unfold wasteBreakdown
  rw [if_neg (fun h => h hb), if_neg (fun h => h hd)]
  set records := r0 :: rs with hrec
  set stages := (s.cycleNames.erase s.backlog_column).erase s.done_column with hstages
  set observed := records.map (·.last_status) with hobs
  set pOf : Nat → Nat := fun d => d / freq with hpOf
  set lo := ((records.map (fun r => pOf r.withdrawn_date)).minimum).untop' 0 with hlo
  set hi := ((records.map (fun r => pOf r.withdrawn_date)).maximum).unbot' 0 with hhi
  set count : Nat → String → Nat := fun p st =>
    records.countP (fun r => r.last_status == st && pOf r.withdrawn_date == p) with hcount
  set g : Nat → String → Option ℚ := fun p st =>
    if observed.contains st then some ((count p st : Nat) : ℚ) else none with hg
  have hcell : ∀ p st, st ∈ stages →
      (stages.map (fun st2 => g p st2)).getD (stages.indexOf st) (some 0) = g p st ∧
      (stages.map (fun st2 => g p st2)).getD (stages.indexOf st) none = g p st := by
    intro p st hst
    exact ⟨map_getD_indexOf stages (g p) st (some 0) hst,
      map_getD_indexOf stages (g p) st none hst⟩
  have hmain : ∀ (T : WTable), T.cols = stages →
      (∀ row ∈ T.rows, ∃ p, row = stages.map (fun st => g p st)) →
      T.cols = stages ∧
      (∀ row ∈ T.rows, row.length = T.cols.length) ∧
      (∀ st ∈ T.cols, st ∉ observed →
        ∀ row ∈ T.rows, row.getD (T.cols.indexOf st) (some 0) = none) ∧
      (∀ st ∈ T.cols, st ∈ observed →
        ∀ row ∈ T.rows, ∃ q : ℚ, row.getD (T.cols.indexOf st) none = some q) := by
    intro T hTc hTr
    refine ⟨hTc, ?_, ?_, ?_⟩
    · intro row hrow
      obtain ⟨p, rfl⟩ := hTr row hrow
      rw [hTc]
      exact List.length_map _ _
    · intro st hst hobs2 row hrow
      obtain ⟨p, rfl⟩ := hTr row hrow
      rw [hTc] at hst ⊢
      rw [(hcell p st hst).1]
      have : observed.contains st = false := by
        simp [hobs2]
      rw [hg]
      simp [this]
      exact hobs2
    · intro st hst hobs2 row hrow
      obtain ⟨p, rfl⟩ := hTr row hrow
      rw [hTc] at hst ⊢
      rw [(hcell p st hst).2]
      have : observed.contains st = true := by
        simp [hobs2]
      rw [hg]
      simp [this]
      exact hobs2
  refine ⟨_, rfl, ?_⟩
  refine hmain _ ?_ ?_
  · by_cases hw : window ≠ 0 <;> simp [hw]
  · by_cases hw : window ≠ 0
    · simp [hw]
      intro row hrow
      have hrow2 := List.drop_subset _ _ hrow
      obtain ⟨p, _, rfl⟩ := List.mem_map.mp hrow2
      exact ⟨p, by simp [hg]⟩
    · simp [hw]
      intro row p hp1 hp2 hrow
      refine ⟨p, ?_⟩
      rw [← hrow]
      simp [hg]

/-- C8 witness: the amended statement at the concrete counterexample
configuration. -/
theorem C8_witness :
    ∃ T, wasteBreakdown ⟨["Backlog", "Build", "Review", "Done"], "Backlog", "Done"⟩ 1 0
        [⟨"K-1", "Build", 5⟩] = some T ∧
      T.cols = ((["Backlog", "Build", "Review", "Done"].erase "Backlog").erase "Done") ∧
      (∀ row ∈ T.rows, row.length = T.cols.length) ∧
      (∀ st ∈ T.cols, st ∉ ([⟨"K-1", "Build", 5⟩] : List WasteRecord).map (·.last_status) →
        ∀ row ∈ T.rows, row.getD (T.cols.indexOf st) (some 0) = none) ∧
      (∀ st ∈ T.cols, st ∈ ([⟨"K-1", "Build", 5⟩] : List WasteRecord).map (·.last_status) →
        ∀ row ∈ T.rows, ∃ q : ℚ, row.getD (T.cols.indexOf st) none = some q) :=
  C8_waste_columns ⟨["Backlog", "Build", "Review", "Done"], "Backlog", "Done"⟩ 1 0
    [⟨"K-1", "Build", 5⟩] (by decide) (by decide) (by decide)

theorem indexOf_append_of_mem {α : Type _} [DecidableEq α] {l₁ : List α}
    (l₂ : List α) {a : α} (h : a ∈ l₁) :
    (l₁ ++ l₂).indexOf a = l₁.indexOf a := by
  induction l₁ with
  | nil => cases h
  | cons b bs ih =>
    by_cases hba : b = a
    · rw [List.cons_append, List.indexOf_cons_eq _ hba, List.indexOf_cons_eq _ hba]
    · have hmem : a ∈ bs := by
        cases h with
        | head => exact absurd rfl hba
        | tail _ h2 => exact h2
      rw [List.cons_append, List.indexOf_cons_ne _ hba, List.indexOf_cons_ne _ hba,
        ih hmem]

theorem indexOf_append_of_not_mem {α : Type _} [DecidableEq α] {l₁ : List α}
    (l₂ : List α) {a : α} (h : a ∉ l₁) :
    (l₁ ++ l₂).indexOf a = l₁.length + l₂.indexOf a := by
  induction l₁ with
  | nil => simp
  | cons b bs ih =>
    have hba : b ≠ a := fun e => h (e ▸ List.mem_cons_self b bs)
    have hmem : a ∉ bs := fun hm => h (List.mem_cons_of_mem b hm)
    rw [List.cons_append, List.indexOf_cons_ne _ hba, ih hmem, List.length_cons]
    omega

theorem selectCols_col (t : Table) (cs : List String) (c : String) (hc : c ∈ cs) :
    (t.selectCols cs).col c = t.rows.map (fun r => rowVal t r c) := by
  unfold Table.selectCols Table.col
  simp only [List.map_map]
  refine List.map_congr_left ?_
  intro r hr
  show (cs.map (fun c2 => rowVal t r c2)).getD (cs.indexOf c) 0 = rowVal t r c
  exact map_getD_indexOf cs (fun c2 => rowVal t r c2) c 0 hc

theorem filter_by_threshold_spec (t : Table) (θ : ℚ)
    (hwf : t.WF) (hno : "Others" ∉ t.cols)
    (h2 : 2 ≤ t.rows.length) (hθ : θ ≠ 0) :
    ∃ tm out, filter_by_threshold t θ = some (tm, out) ∧
      tm = t.setCol "Others" (t.rows.map (fun r =>
        ((t.cols.filter (fun c => collapses t θ c)).map (fun c => rowVal t r c)).sum)) ∧
      out.index = t.index ∧
      out.cols = t.cols.filter (fun c => !(collapses t θ c)) ++ ["Others"] ∧
      out.rows.length = t.rows.length ∧
      (∀ c ∈ t.cols, collapses t θ c = false → out.col c = t.col c) ∧
      out.col "Others" = t.rows.map (fun r =>
        ((t.cols.filter (fun c => collapses t θ c)).map (fun c => rowVal t r c)).sum) := by
  obtain ⟨r1, hr1⟩ : ∃ r1, t.rows[1]? = some r1 :=
    ⟨_, List.getElem?_eq_getElem (by omega)⟩
  set f : List ℚ → ℚ := fun r =>
    ((t.cols.filter (fun c => collapses t θ c)).map (fun c => rowVal t r c)).sum with hf
  have hzip : ∀ (rs : List (List ℚ)), rs.zip (rs.map f) = rs.map (fun r => (r, f r)) := by
    intro rs
    induction rs with
    | nil => rfl
    | cons a as ih => simp only [List.map_cons, List.zip_cons_cons, ih]
  have hsetcol : t.setCol "Others" (t.rows.map f) =
      ⟨t.index, t.cols ++ ["Others"], t.rows.map (fun r => r ++ [f r])⟩ := by
    unfold Table.setCol
    rw [if_neg (by simp [hno])]
    rw [hzip, List.map_map]
    rfl
  have hkeep : (t.cols ++ ["Others"]).filter
      (fun c => c == "Others" || !(collapses t θ c)) =
      t.cols.filter (fun c => !(collapses t θ c)) ++ ["Others"] := by
    rw [List.filter_append]
    congr 1
    · refine List.filter_congr ?_
      intro c hc
      have hcne : (c == "Others") = false := by
        simp only [beq_eq_false_iff_ne, ne_eq]
        intro e
        exact hno (e ▸ hc)
      rw [hcne, Bool.false_or]
  have hkeep2 : (t.setCol "Others" (t.rows.map f)).cols.filter
      (fun c => c == "Others" || !(collapses t θ c)) =
      t.cols.filter (fun c => !(collapses t θ c)) ++ ["Others"] := by
    rw [hsetcol]
    exact hkeep
  have hrowlen : ∀ r ∈ t.rows, r.length = t.cols.length := hwf.2
  -- value of a cell of the mutated frame in a pre-existing column
  have hcell_old : ∀ c ∈ t.cols, ∀ r ∈ t.rows,
      rowVal ⟨t.index, t.cols ++ ["Others"], t.rows.map (fun r2 => r2 ++ [f r2])⟩
        (r ++ [f r]) c = rowVal t r c := by
    intro c hc r hr
    unfold rowVal
    show (r ++ [f r]).getD ((t.cols ++ ["Others"]).indexOf c) 0 = r.getD (t.cols.indexOf c) 0
    rw [indexOf_append_of_mem _ hc]
    exact List.getD_append _ _ _ _ (by
      rw [hrowlen r hr]
      exact List.indexOf_lt_length.mpr hc)
  have hcell_others : ∀ r ∈ t.rows,
      rowVal ⟨t.index, t.cols ++ ["Others"], t.rows.map (fun r2 => r2 ++ [f r2])⟩
        (r ++ [f r]) "Others" = f r := by
    intro r hr
    unfold rowVal
    show (r ++ [f r]).getD ((t.cols ++ ["Others"]).indexOf "Others") 0 = f r
    rw [indexOf_append_of_not_mem _ hno]
    have h0 : List.indexOf "Others" ["Others"] = 0 := List.indexOf_cons_self _ _
    rw [h0, Nat.add_zero, List.getD_append_right _ _ _ _ (by rw [hrowlen r hr])]
    rw [hrowlen r hr]
    simp
  refine ⟨t.setCol "Others" (t.rows.map f),
    (t.setCol "Others" (t.rows.map f)).selectCols
      ((t.setCol "Others" (t.rows.map f)).cols.filter
        (fun c => c == "Others" || !(collapses t θ c))),
    ?_, rfl, ?_, ?_, ?_, ?_, ?_⟩
  · unfold filter_by_threshold
    rw [if_pos hθ, hr1]
  · show (t.setCol "Others" (t.rows.map f)).index = t.index
    rw [hsetcol]
  · show (t.setCol "Others" (t.rows.map f)).cols.filter _ = _
    exact hkeep2
  · show ((t.setCol "Others" (t.rows.map f)).rows.map _).length = _
    rw [hsetcol]
    simp
  · intro c hc hcol
    have hck : c ∈ (t.setCol "Others" (t.rows.map f)).cols.filter
        (fun c => c == "Others" || !(collapses t θ c)) := by
      rw [hkeep2]
      exact List.mem_append_left _ (List.mem_filter.mpr ⟨hc, by rw [hcol]; rfl⟩)
    rw [selectCols_col _ _ _ hck]
    unfold Table.col
    rw [hsetcol]
    show (t.rows.map (fun r2 => r2 ++ [f r2])).map _ = _
    rw [List.map_map]
    refine List.map_congr_left ?_
    intro r hr
    exact hcell_old c hc r hr
  · have hok : "Others" ∈ (t.setCol "Others" (t.rows.map f)).cols.filter
        (fun c => c == "Others" || !(collapses t θ c)) := by
      rw [hkeep2]
      exact List.mem_append_right _ (List.mem_cons_self _ _)
    rw [selectCols_col _ _ _ hok]
    rw [hsetcol]
    show (t.rows.map (fun r2 => r2 ++ [f r2])).map _ = _
    rw [List.map_map]
    refine List.map_congr_left ?_
    intro r hr
    exact hcell_others r hr

/-- C4: with at least two rows and a non-zero threshold (and a non-zero
second-row total, where rational division faithfully models the float
division), `filter_by_threshold` collapses exactly the columns whose share
`value * 100 / total-of-row-1` is below the threshold in every row — the
divisor fixed to the second row's total — removes them, sums them per row
into an `Others` column placed last, and keeps the remaining columns in
their original relative order with their values and the index and row
count unchanged. -/
theorem C4_threshold_semantics (t : Table) (θ : ℚ)
    (hwf : t.WF) (hno : "Others" ∉ t.cols)
    (h2 : 2 ≤ t.rows.length) (hθ : θ ≠ 0)
    (htot : (t.rows.getD 1 []).sum ≠ 0) :
    ∃ tm out, filter_by_threshold t θ = some (tm, out) ∧
      (∀ c ∈ t.cols, (collapses t θ c = true ↔
        ∀ r ∈ t.rows, rowVal t r c * 100 / (t.rows.getD 1 []).sum < θ)) ∧
      out.cols = t.cols.filter (fun c => !(collapses t θ c)) ++ ["Others"] ∧
      (∀ c ∈ t.cols, collapses t θ c = false → out.col c = t.col c) ∧
      out.col "Others" = t.rows.map (fun r =>
        ((t.cols.filter (fun c => collapses t θ c)).map (fun c => rowVal t r c)).sum) ∧
      out.index = t.index ∧ out.rows.length = t.rows.length := by
  obtain ⟨tm, out, h1, _, h3, h4, h5, h6, h7⟩ := filter_by_threshold_spec t θ hwf hno h2 hθ
  refine ⟨tm, out, h1, ?_, h4, h6, h7, h3, h5⟩
  intro c hc
  unfold collapses shareOf
  rw [List.all_eq_true]
  constructor
  · intro h r hr
    exact of_decide_eq_true (h r hr)
  · intro h r hr
    exact decide_eq_true (h r hr)

/-- C10: with at least two rows and a non-zero threshold the output of
`filter_by_threshold` always ends with an `Others` column — present even
when no column qualifies for collapsing, in which case it is 0 in every
row — and has exactly as many rows as the input. -/
theorem C10_others_always_present (t : Table) (θ : ℚ)
    (hwf : t.WF) (hno : "Others" ∉ t.cols)
    (h2 : 2 ≤ t.rows.length) (hθ : θ ≠ 0) :
    ∃ tm out, filter_by_threshold t θ = some (tm, out) ∧
      "Others" ∈ out.cols ∧
      out.cols.getLast? = some "Others" ∧
      out.rows.length = t.rows.length ∧
      ((∀ c ∈ t.cols, collapses t θ c = false) →
        out.col "Others" = t.rows.map (fun _ => (0 : ℚ))) := by
  obtain ⟨tm, out, h1, _, h3, h4, h5, h6, h7⟩ := filter_by_threshold_spec t θ hwf hno h2 hθ
  refine ⟨tm, out, h1, ?_, ?_, h5, ?_⟩
  · rw [h4]
    exact List.mem_append_right _ (List.mem_cons_self _ _)
  · rw [h4]
    exact List.getLast?_concat _
  · intro hall
    rw [h7]
    refine List.map_congr_left ?_
    intro r hr
    have hnil : t.cols.filter (fun c => collapses t θ c) = [] := by
      rw [List.filter_eq_nil_iff]
      intro a ha
      simp [hall a ha]
    rw [hnil]
    rfl

/-- C4 witness: the spec scenario table (shares 1% and 99%) with threshold
50 collapses only the 1% column. -/
theorem C4_witness :
    ∃ tm out, filter_by_threshold ⟨[0, 1], ["a", "b"], [[1, 99], [1, 99]]⟩ 50 =
        some (tm, out) ∧
      (∀ c ∈ (⟨[0, 1], ["a", "b"], [[1, 99], [1, 99]]⟩ : Table).cols,
        (collapses ⟨[0, 1], ["a", "b"], [[1, 99], [1, 99]]⟩ 50 c = true ↔
          ∀ r ∈ (⟨[0, 1], ["a", "b"], [[1, 99], [1, 99]]⟩ : Table).rows,
            rowVal ⟨[0, 1], ["a", "b"], [[1, 99], [1, 99]]⟩ r c * 100 /
              ((⟨[0, 1], ["a", "b"], [[1, 99], [1, 99]]⟩ : Table).rows.getD 1 []).sum < 50)) ∧
      out.cols = (⟨[0, 1], ["a", "b"], [[1, 99], [1, 99]]⟩ : Table).cols.filter
          (fun c => !(collapses ⟨[0, 1], ["a", "b"], [[1, 99], [1, 99]]⟩ 50 c)) ++
        ["Others"] ∧
      (∀ c ∈ (⟨[0, 1], ["a", "b"], [[1, 99], [1, 99]]⟩ : Table).cols,
        collapses ⟨[0, 1], ["a", "b"], [[1, 99], [1, 99]]⟩ 50 c = false →
        out.col c = Table.col ⟨[0, 1], ["a", "b"], [[1, 99], [1, 99]]⟩ c) ∧
      out.col "Others" = (⟨[0, 1], ["a", "b"], [[1, 99], [1, 99]]⟩ : Table).rows.map
        (fun r => (((⟨[0, 1], ["a", "b"], [[1, 99], [1, 99]]⟩ : Table).cols.filter
          (fun c => collapses ⟨[0, 1], ["a", "b"], [[1, 99], [1, 99]]⟩ 50 c)).map
          (fun c => rowVal ⟨[0, 1], ["a", "b"], [[1, 99], [1, 99]]⟩ r c)).sum) ∧
      out.index = (⟨[0, 1], ["a", "b"], [[1, 99], [1, 99]]⟩ : Table).index ∧
      out.rows.length = (⟨[0, 1], ["a", "b"], [[1, 99], [1, 99]]⟩ : Table).rows.length :=
  C4_threshold_semantics ⟨[0, 1], ["a", "b"], [[1, 99], [1, 99]]⟩ 50
    (by decide) (by decide) (by decide) (by decide) (by decide)

/-- C10 witness: a table where no column's share is below the threshold
still gains an all-zero `Others` column. -/
theorem C10_witness :
    ∃ tm out, filter_by_threshold ⟨[0, 1], ["a", "b"], [[50, 50], [50, 50]]⟩ 50 =
        some (tm, out) ∧
      "Others" ∈ out.cols ∧
      out.cols.getLast? = some "Others" ∧
      out.rows.length = (⟨[0, 1], ["a", "b"], [[50, 50], [50, 50]]⟩ : Table).rows.length ∧
      ((∀ c ∈ (⟨[0, 1], ["a", "b"], [[50, 50], [50, 50]]⟩ : Table).cols,
          collapses ⟨[0, 1], ["a", "b"], [[50, 50], [50, 50]]⟩ 50 c = false) →
        out.col "Others" =
          (⟨[0, 1], ["a", "b"], [[50, 50], [50, 50]]⟩ : Table).rows.map
            (fun _ => (0 : ℚ))) :=
  C10_others_always_present ⟨[0, 1], ["a", "b"], [[50, 50], [50, 50]]⟩ 50
    (by decide) (by decide) (by decide) (by decide)
